import Mathlib

/-!
# Simple IRC server (`server.go`): registry, event handlers and command dispatcher

A shallow embedding of the server side of the chat service.

* Go strings are lists of characters (`List Char`), that is, texts in valid UTF-8; string
  literals of the source are written `"...".toList`.
* A `net.Conn` is identified by a natural number.
* `Server.clients` is the Go map `map[net.Conn]Client`, kept as an association list; the
  order of the list is the order in which a `range` loop visits the map, so a statement
  for every list is a statement for every iteration order.
* Everything the server does to the outside (writes to a connection, sends on the
  `leave` and `msg` channels, `Close`, `go handle_client`, log lines) is appended, in
  program order, to `Server.out`.
-/

namespace IrcServer

/-- Identity of a `net.Conn`. -/
abbrev Conn := Nat

/-- Client: a client connected to the server. -/
structure Client where
  conn : Conn
  username : List Char
  isAdmin : Bool
deriving DecidableEq, Repr

/-- What the server does to its environment. -/
inductive Effect where
  /-- A call `conn.Write([]byte(text))`. -/
  | write (conn : Conn) (text : List Char)
  /-- A send `srv.leave <- conn`. -/
  | leave (conn : Conn)
  /-- A send `srv.msg <- text`. -/
  | msg (text : List Char)
  /-- A call `conn.Close()`. -/
  | close (conn : Conn)
  /-- A statement `go srv.handle_client(client)`. -/
  | spawn (client : Client)
  /-- A line printed with `log.Printf`, `log.Println` or `fmt.Println`. -/
  | log (text : List Char)
deriving DecidableEq, Repr

/-- Server: the registry `clients` together with the effects performed so far. -/
structure Server where
  clients : List (Conn × Client)
  out : List Effect
deriving DecidableEq, Repr

/-- What the environment supplies: the clock reading `time.Now().String()`, the remote
address of a connection, and the error (if any) returned by a `Write` on a connection. -/
structure Env where
  now : List Char
  remoteAddr : Conn → List Char
  writeErr : Conn → Option (List Char)

/-- The function start_server: an empty registry, nothing done yet. -/
def start_server : Server := { clients := [], out := [] }

/-- Append one effect to the record. -/
def emit (srv : Server) (e : Effect) : Server :=
  { srv with out := srv.out ++ [e] }

/-! ## Go string library -/

/-- Go `unicode.IsSpace`. -/
def isSpace (c : Char) : Bool :=
  let n := c.toNat
  (9 ≤ n && n ≤ 13) || n == 0x20 || n == 0x85 || n == 0xA0 || n == 0x1680 ||
  (0x2000 ≤ n && n ≤ 0x200A) || n == 0x2028 || n == 0x2029 || n == 0x202F ||
  n == 0x205F || n == 0x3000

/-- Go `strings.TrimSpace`: drop leading and trailing white space. -/
def TrimSpace (s : List Char) : List Char :=
  (s.dropWhile isSpace).rdropWhile isSpace

/-- Go `strings.Split(s, sep)` for a separator `sep` of one character. The result is
never empty: `Split "" " "` is `[""]`. -/
def Split : List Char → Char → List (List Char)
  | [], _ => [[]]
  | c :: cs, sep =>
    if c = sep then [] :: Split cs sep
    else
      match Split cs sep with
      | [] => [[c]]
      | t :: ts => (c :: t) :: ts

/-- Go `strings.Join(elems, sep)`. -/
def Join (elems : List (List Char)) (sep : List Char) : List Char :=
  sep.intercalate elems

/-- Go `strings.HasPrefix(s, p)`. -/
def HasPrefix (s p : List Char) : Bool :=
  p.isPrefixOf s

/-! ## Registry (Go map) operations -/

/-- Go `v, ok := m[k]`. -/
def mapGet (m : List (Conn × Client)) (k : Conn) : Option Client :=
  (m.find? (fun p => p.1 = k)).map Prod.snd

/-- Go `delete(m, k)`. -/
def mapDelete (m : List (Conn × Client)) (k : Conn) : List (Conn × Client) :=
  m.filter (fun p => p.1 ≠ k)

/-- Go `m[k] = v`: the entry for `k`, if any, is replaced. -/
def mapSet (m : List (Conn × Client)) (k : Conn) (v : Client) : List (Conn × Client) :=
  mapDelete m k ++ [(k, v)]

/-! ## Connection management -/

/-- The function handle_conection: `scanned` is the outcome of the one `scanner.Scan()`.
It is `some token` when the scan yields a token: a complete line without its line end,
or the text left unterminated when the stream ended or the read failed. It is `none`
when the scan yields no token, as when the stream ends or the read fails with nothing
received; `scanner.Text()` is then the empty string. The source does not inspect the
result of `Scan()`. -/
def handle_conection (srv : Server) (conn : Conn) (scanned : Option (List Char)) : Server :=
  let username := scanned.getD []
  let client : Client :=
    { conn := conn, username := username, isAdmin := username == "admin".toList }
  let srv := { srv with clients := mapSet srv.clients conn client }
  let srv := emit srv (.log ("irc-server > New connected user [".toList ++ username ++ "]\n".toList))
  let srv :=
    if client.isAdmin then
      emit srv (.log ("irc-server > [".toList ++ username ++
        "] was promoted as the channel ADMIN\n".toList))
    else srv
  emit srv (.spawn client)

/-- The function close_conection. -/
def close_conection (srv : Server) (conn : Conn) : Server :=
  let srv :=
    match mapGet srv.clients conn with
    | some client =>
      let srv := emit srv (.log ("irc-server > [".toList ++ client.username ++ "] left\n".toList))
      { srv with clients := mapDelete srv.clients conn }
    | none => srv
  emit srv (.close conn)

/-! ## Channel management -/

/-- One iteration of the loop of handle_message. -/
def handle_message_step (env : Env) (msg : List Char) (srv : Server) (client : Client) :
    Server :=
  let srv := emit srv (.write client.conn (msg ++ "\n".toList))
  match env.writeErr client.conn with
  | some err => emit srv (.log ("irc-server > Message sending failed ❌: ".toList ++ err ++ "\n".toList))
  | none => srv

/-- The function handle_message. -/
def handle_message (env : Env) (srv : Server) (msg : List Char) : Server :=
  srv.clients.foldl (fun s p => handle_message_step env msg s p.2) srv

/-! ## Commands -/

/-- The function list_users (command `/users`). -/
def list_users (srv : Server) (client : Client) : Server :=
  srv.clients.foldl
    (fun s p => emit s (.write client.conn ("\t".toList ++ p.2.username ++ " 👤\n".toList))) srv

/-- The function direct_message (command `/msg`). -/
def direct_message (srv : Server) (client : Client) (tokens : List (List Char)) : Server :=
  if tokens.length < 3 then
    emit srv (.write client.conn
      "irc-server > Please provide a user 👤  and a message 💬\n".toList)
  else
    let username := tokens.getD 1 []
    let msg := Join (tokens.drop 2) " ".toList
    match srv.clients.find? (fun p => p.2.username = username) with
    | some p =>
      emit srv (.write p.2.conn ("DM from <".toList ++ client.username ++ ">: \"".toList ++
        msg ++ "\" 😶‍🌫️\n".toList))
    | none =>
      emit srv (.write client.conn ("irc-server> The user '".toList ++ username ++
        "' does not exist 🫥\n".toList))

/-- The function current_time (command `/time`). -/
def current_time (env : Env) (srv : Server) (client : Client) : Server :=
  emit srv (.write client.conn ("irc-server> Server time: ".toList ++ env.now ++ "⏰ \n".toList))

/-- The function user_info (command `/user`). -/
def user_info (env : Env) (srv : Server) (client : Client) (tokens : List (List Char)) :
    Server :=
  if tokens.length < 2 then
    emit srv (.write client.conn "Please provide a <user> to view 😓\n".toList)
  else
    let username := tokens.getD 1 []
    match srv.clients.find? (fun p => p.2.username = username) with
    | some p =>
      emit srv (.write client.conn ("\tUsername: ".toList ++ p.2.username ++ " 🥸, \tIP: ".toList ++
        env.remoteAddr p.2.conn ++ " 🛜\n".toList))
    | none =>
      emit srv (.write client.conn ("The <user> ".toList ++ username ++
        " does not exist 😐\n".toList))

/-- The function kick_user (command `/kick`). The notice is written to the connection
stored in the matching client record, the `leave` send carries the key of the map
entry. -/
def kick_user (srv : Server) (client : Client) (tokens : List (List Char)) : Server :=
  if tokens.length < 2 then
    emit srv (.write client.conn "Please provide a user to kick 🩴\n".toList)
  else
    let username := tokens.getD 1 []
    match srv.clients.find? (fun p => p.2.username = username) with
    | some p =>
      let srv := emit srv (.write p.2.conn "🚩 You have been kicked from the server 🚩\n".toList)
      let srv := emit srv (.log ("irc-server > [".toList ++ username ++ "] was kicked\n".toList))
      emit srv (.leave p.1)
    | none =>
      emit srv (.write client.conn ("The <user> ".toList ++ username ++
        " does not exist 🤠\n".toList))

/-! ## Client session -/

/-- The `switch cmd` of handle_client for an administrator. -/
def dispatch_admin (env : Env) (srv : Server) (client : Client) (tokens : List (List Char)) :
    Server :=
  let cmd := tokens.headD []
  if cmd = "/users".toList then list_users srv client
  else if cmd = "/msg".toList then direct_message srv client tokens
  else if cmd = "/time".toList then current_time env srv client
  else if cmd = "/user".toList then user_info env srv client tokens
  else if cmd = "/kick".toList then kick_user srv client tokens
  else emit srv (.write client.conn "Invalid command ⁉️\n".toList)

/-- The `switch cmd` of handle_client for a normal user. -/
def dispatch_member (env : Env) (srv : Server) (client : Client) (tokens : List (List Char)) :
    Server :=
  let cmd := tokens.headD []
  if cmd = "/users".toList then list_users srv client
  else if cmd = "/msg".toList then direct_message srv client tokens
  else if cmd = "/time".toList then current_time env srv client
  else if cmd = "/user".toList then user_info env srv client tokens
  else emit srv (.write client.conn "Not allowed command, must be admin 👮‍♂️\n".toList)

/-- The branch `if client.isAdmin` of handle_client around the two switches. -/
def dispatch (env : Env) (srv : Server) (client : Client) (tokens : List (List Char)) :
    Server :=
  if client.isAdmin then dispatch_admin env srv client tokens
  else dispatch_member env srv client tokens

/-- The tokens handle_client hands to the command functions for a line read from the
connection: `strings.Split(strings.TrimSpace(msg), " ")`. -/
def tokenize (raw : List Char) : List (List Char) :=
  Split (TrimSpace raw) ' '

/-- The body of the loop of handle_client for a message `raw` that `ReadString` has
returned without error. -/
def handle_line (env : Env) (srv : Server) (client : Client) (raw : List Char) : Server :=
  let msg := TrimSpace raw
  if msg.length = 0 then srv
  else if HasPrefix msg "/".toList then dispatch env srv client (Split msg ' ')
  else emit srv (.msg (client.username ++ "> ".toList ++ msg))

/-- How the read loop of handle_client ends: `io.EOF` or another error (with its text). -/
inductive ReadError where
  | eof
  | other (text : List Char)
deriving DecidableEq, Repr

/-- The function handle_client. `reads` are the successful reads of the session in
order; each comes with the contents of the registry at the moment the line is handled
(the registry is changed by the event loop between two reads, never by the session).
`stop` is the read error that ends the loop. -/
def handle_client (env : Env) (client : Client) :
    Server → List (List (Conn × Client) × List Char) → ReadError → Server
  | srv, [], stop =>
    let srv :=
      match stop with
      | .eof => emit srv (.log "irc-server > The connection is closed.\n".toList)
      | .other e =>
        emit srv (.log ("irc-server > Failed to read from the server: ".toList ++ e ++
          "\n".toList))
    emit srv (.leave client.conn)
  | srv, (snapshot, raw) :: rest, stop =>
    handle_client env client
      (handle_line env { srv with clients := snapshot } client raw) rest stop

/-! ## Observations on the record of effects -/

/-- The connections sent on the `leave` channel, in order. -/
def leaves : List Effect → List Conn
  | [] => []
  | .leave c :: es => c :: leaves es
  | _ :: es => leaves es

/-- The texts written to connection `c`, in order. -/
def writesTo (c : Conn) : List Effect → List (List Char)
  | [] => []
  | .write d t :: es => if d = c then t :: writesTo c es else writesTo c es
  | _ :: es => writesTo c es

/-- The connections on which `Close` was called, in order. -/
def closes : List Effect → List Conn
  | [] => []
  | .close c :: es => c :: closes es
  | _ :: es => closes es

/-- The registry as the Go map keeps it: every connection is a key at most once, and the
record stored under a key carries that connection. -/
def RegistryOk (m : List (Conn × Client)) : Prop :=
  (m.map Prod.fst).Nodup ∧ ∀ p ∈ m, p.2.conn = p.1

instance (m : List (Conn × Client)) : Decidable (RegistryOk m) := by
  unfold RegistryOk; infer_instance

/-- The line `/users` writes for a client called `u`. -/
def userLine (u : List Char) : List Char :=
  "\t".toList ++ u ++ " 👤\n".toList

/-- The username on a line written by `/users`: the line without its leading tab and
without the three closing characters. -/
def userOfLine (line : List Char) : List Char :=
  (line.drop 1).dropLast.dropLast.dropLast

/-- Tokenizing by white space, in the words of the specification: the maximal runs of
characters that are not white space, in order (Go `strings.Fields`). -/
def Fields : List Char → List (List Char)
  | [] => []
  | [c] => if isSpace c then [] else [[c]]
  | c :: d :: ds =>
    if isSpace c then Fields (d :: ds)
    else if isSpace d then [c] :: Fields (d :: ds)
    else
      match Fields (d :: ds) with
      | [] => [[c]]
      | t :: ts => (c :: t) :: ts

/-- The string is made of words separated by single spaces: it is not empty, its only
white space characters are spaces, and every space stands between two characters that
are not white space. -/
def spacedWords : List Char → Bool
  | [] => false
  | [c] => !isSpace c
  | c :: d :: ds =>
    !isSpace c && (if d = ' ' then spacedWords ds else spacedWords (d :: ds))

/-! ## Sample data used at concrete inputs -/

/-- An environment in which the clock shows noon and no write fails. -/
def quietEnv : Env :=
  { now := "12:00".toList, remoteAddr := fun _ => "127.0.0.1:5000".toList,
    writeErr := fun _ => none }

/-- An environment in which every write to connection 2 fails. -/
def lossyEnv : Env :=
  { now := "12:00".toList, remoteAddr := fun _ => "127.0.0.1:5000".toList,
    writeErr := fun c => if c = 2 then some "broken pipe".toList else none }

/-- The administrator, on connection 1. -/
def adminClient : Client := { conn := 1, username := "admin".toList, isAdmin := true }

/-- The member `bob`, on connection 2. -/
def bobClient : Client := { conn := 2, username := "bob".toList, isAdmin := false }

/-- A server with the administrator and `bob` registered and nothing done yet. -/
def smallRoom : Server := { clients := [(1, adminClient), (2, bobClient)], out := [] }

/-- The connection a line makes the administrator ask to be disconnected: the line is a
`/kick` with an argument and the registry `m` has a client of that name; the connection
is the key of the first such entry. -/
def kickTarget (m : List (Conn × Client)) (raw : List Char) : Option Conn :=
  let tokens := tokenize raw
  if tokens.headD [] = "/kick".toList then
    if tokens.length < 2 then none
    else (m.find? (fun p => p.2.username = tokens.getD 1 [])).map Prod.fst
  else none

/-- The Leave requests a session makes while it handles its lines: none for a member,
the targets of the effective kicks for the administrator. -/
def kickRequests (client : Client) (reads : List (List (Conn × Client) × List Char)) :
    List Conn :=
  reads.filterMap (fun r => if client.isAdmin then kickTarget r.1 r.2 else none)

/-- A session of the administrator, alone in the room, who kicks `admin`. -/
def selfKickSession : Server :=
  handle_client quietEnv adminClient ⟨[(1, adminClient)], []⟩
    [([(1, adminClient)], "/kick admin\n".toList)]
    (ReadError.other "use of closed network connection".toList)

/-! ## Basic facts -/

@[simp] theorem emit_clients (srv : Server) (e : Effect) : (emit srv e).clients = srv.clients :=
  rfl

@[simp] theorem emit_out (srv : Server) (e : Effect) : (emit srv e).out = srv.out ++ [e] :=
  rfl

theorem foldl_emit {α : Type} (f : α → Effect) (l : List α) (srv : Server) :
    l.foldl (fun s a => emit s (f a)) srv = { srv with out := srv.out ++ l.map f } := by
  induction l generalizing srv with
  | nil => simp
  | cons a l ih =>
    rw [List.foldl_cons, ih]
    simp [emit]

theorem list_users_eq (srv : Server) (client : Client) :
    list_users srv client =
      { srv with out := srv.out ++
          srv.clients.map (fun p => Effect.write client.conn (userLine p.2.username)) } := by
  unfold list_users userLine
  exact foldl_emit (fun p => Effect.write client.conn _) srv.clients srv

theorem userOfLine_userLine (u : List Char) : userOfLine (userLine u) = u := by
  have h : userLine u = '\t' :: (u ++ [' ', '👤', '\n']) := by
    simp [userLine]
  rw [h]
  simp only [userOfLine, List.drop_succ_cons, List.drop_zero]
  have e : u ++ [' ', '👤', '\n'] = ((u ++ [' ']) ++ ['👤']) ++ ['\n'] := by simp
  rw [e, List.dropLast_concat, List.dropLast_concat, List.dropLast_concat]

theorem dispatch_users (env : Env) (srv : Server) (client : Client)
    (args : List (List Char)) :
    dispatch env srv client ("/users".toList :: args) = list_users srv client := by
  unfold dispatch dispatch_admin dispatch_member
  cases client.isAdmin <;> simp

theorem Split_ne_nil (s : List Char) (sep : Char) : Split s sep ≠ [] := by
  induction s with
  | nil => simp [Split]
  | cons c cs ih =>
    unfold Split
    split
    · simp
    · split <;> simp

/-- When the first token is not empty, the string starts with its first character. -/
theorem Split_head_cons {s : List Char} {sep c : Char} {t : List Char}
    {ts : List (List Char)} (h : Split s sep = (c :: t) :: ts) : ∃ r, s = c :: r := by
  cases s with
  | nil => simp [Split] at h
  | cons d ds =>
    unfold Split at h
    split at h
    · simp at h
    · split at h
      · simp only [List.cons.injEq, List.nil_eq] at h
        exact ⟨ds, by rw [h.1.1]⟩
      · simp only [List.cons.injEq] at h
        exact ⟨ds, by rw [h.1.1]⟩

/-- A line whose first token starts with `/` is handled by the dispatcher. -/
theorem handle_line_command (env : Env) (srv : Server) (client : Client)
    (raw t : List Char) (ts : List (List Char))
    (h : tokenize raw = ('/' :: t) :: ts) :
    handle_line env srv client raw = dispatch env srv client (tokenize raw) := by
  obtain ⟨r, hr⟩ := Split_head_cons h
  unfold handle_line tokenize
  simp [hr, HasPrefix]

/-- The loop "visit the registry until a client with the username is met" finds a
registered client with that username whenever there is one. -/
theorem find_user_some {m : List (Conn × Client)} {u : List Char}
    (h : ∃ p ∈ m, p.2.username = u) :
    ∃ p, m.find? (fun p => p.2.username = u) = some p ∧ p ∈ m ∧ p.2.username = u := by
  obtain ⟨q, hq, hu⟩ := h
  cases hf : m.find? (fun p => decide (p.2.username = u)) with
  | none =>
    rw [List.find?_eq_none] at hf
    have := hf q hq
    simp [hu] at this
  | some p =>
    refine ⟨p, rfl, List.mem_of_find?_eq_some hf, ?_⟩
    have := List.find?_some hf
    simpa using this

theorem find_user_none {m : List (Conn × Client)} {u : List Char}
    (h : ¬ ∃ p ∈ m, p.2.username = u) :
    m.find? (fun p => p.2.username = u) = none := by
  rw [List.find?_eq_none]
  intro p hp
  simp only [decide_eq_true_eq]
  exact fun hu => h ⟨p, hp, hu⟩

theorem mapGet_mapDelete (m : List (Conn × Client)) (k : Conn) :
    mapGet (mapDelete m k) k = none := by
  unfold mapGet mapDelete
  rw [Option.map_eq_none', List.find?_eq_none]
  intro p hp
  have := (List.mem_filter.mp hp).2
  simpa using this

theorem mapDelete_of_mapGet_none {m : List (Conn × Client)} {k : Conn}
    (h : mapGet m k = none) : mapDelete m k = m := by
  unfold mapGet at h
  rw [Option.map_eq_none', List.find?_eq_none] at h
  unfold mapDelete
  rw [List.filter_eq_self]
  intro p hp
  have := h p hp
  simpa using this

theorem mapGet_mapSet (m : List (Conn × Client)) (k : Conn) (v : Client) :
    mapGet (mapSet m k v) k = some v := by
  have h := mapGet_mapDelete m k
  unfold mapGet at h
  rw [Option.map_eq_none'] at h
  unfold mapGet mapSet
  rw [List.find?_append, h]
  simp


theorem leaves_append (a b : List Effect) : leaves (a ++ b) = leaves a ++ leaves b := by
  induction a with
  | nil => rfl
  | cons e a ih => cases e <;> simp [leaves, ih]

theorem closes_append (a b : List Effect) : closes (a ++ b) = closes a ++ closes b := by
  induction a with
  | nil => rfl
  | cons e a ih => cases e <;> simp [closes, ih]

/-- Joining words with single spaces: the first word, then every further word behind one
space. -/
theorem Join_space (t : List Char) (ts : List (List Char)) :
    Join (t :: ts) " ".toList = t ++ (ts.map (fun w => ' ' :: w)).flatten := by
  induction ts generalizing t with
  | nil => simp [Join, List.intercalate, List.intersperse]
  | cons u us ih =>
    have h : Join (t :: u :: us) " ".toList = t ++ " ".toList ++ Join (u :: us) " ".toList := by
      simp [Join, List.intercalate, List.intersperse]
    rw [h, ih u]
    simp

/-- The effects of the loop of handle_message over the entries `m`, in order: one write
per entry, followed by a log line when the write fails. -/
theorem handle_message_fold (env : Env) (msg : List Char) (m : List (Conn × Client))
    (srv : Server) :
    ∃ new : List Effect,
      m.foldl (fun s p => handle_message_step env msg s p.2) srv =
        { srv with out := srv.out ++ new } ∧
      (∀ c, writesTo c new =
        (m.filter (fun p => p.2.conn = c)).map (fun _ => msg ++ "\n".toList)) ∧
      (∀ e ∈ new, (∃ c, e = Effect.write c (msg ++ "\n".toList)) ∨ ∃ t, e = Effect.log t) := by
  induction m generalizing srv with
  | nil => exact ⟨[], by simp, by simp [writesTo], by simp⟩
  | cons p m ih =>
    rw [List.foldl_cons]
    obtain ⟨new, hnew, hw, hk⟩ := ih (handle_message_step env msg srv p.2)
    cases herr : env.writeErr p.2.conn with
    | none =>
      have hstep : handle_message_step env msg srv p.2 =
          emit srv (Effect.write p.2.conn (msg ++ "\n".toList)) := by
        unfold handle_message_step
        simp only [herr]
      refine ⟨Effect.write p.2.conn (msg ++ "\n".toList) :: new, ?_, ?_, ?_⟩
      · rw [hnew, hstep]
        simp [emit]
      · intro c
        simp only [writesTo, hw c, List.filter_cons]
        by_cases h : p.2.conn = c <;> simp [h]
      · intro e he
        rcases List.mem_cons.mp he with rfl | he
        · exact Or.inl ⟨_, rfl⟩
        · exact hk e he
    | some err =>
      have hstep : handle_message_step env msg srv p.2 =
          emit (emit srv (Effect.write p.2.conn (msg ++ "\n".toList)))
            (Effect.log ("irc-server > Message sending failed ❌: ".toList ++ err ++
              "\n".toList)) := by
        unfold handle_message_step
        simp only [herr]
      refine ⟨Effect.write p.2.conn (msg ++ "\n".toList) ::
        Effect.log ("irc-server > Message sending failed ❌: ".toList ++ err ++ "\n".toList) ::
        new, ?_, ?_, ?_⟩
      · rw [hnew, hstep]
        simp [emit]
      · intro c
        simp only [writesTo, hw c, List.filter_cons]
        by_cases h : p.2.conn = c <;> simp [h]
      · intro e he
        rcases List.mem_cons.mp he with rfl | he
        · exact Or.inl ⟨_, rfl⟩
        · rcases List.mem_cons.mp he with rfl | he
          · exact Or.inr ⟨_, rfl⟩
          · exact hk e he

/-- In a registry whose keys are distinct, the entries under a key are one or none. -/
theorem filter_key_length {m : List (Conn × Client)} (h : (m.map Prod.fst).Nodup) (c : Conn) :
    (m.filter (fun p => p.1 = c)).length = if c ∈ m.map Prod.fst then 1 else 0 := by
  induction m with
  | nil => simp
  | cons p m ih =>
    rw [List.map_cons, List.nodup_cons] at h
    have ih := ih h.2
    by_cases hp : p.1 = c
    · subst hp
      have hnot : p.1 ∉ m.map Prod.fst := h.1
      rw [if_neg hnot] at ih
      simp [List.filter_cons, ih]
    · have hne : ¬ c = p.1 := fun e => hp e.symm
      simp only [List.filter_cons, hp, decide_False, Bool.false_eq_true, if_false, ih,
        List.map_cons, List.mem_cons, hne, false_or]


theorem leaves_map_write (c : Conn) (l : List (List Char)) :
    leaves (l.map (fun t => Effect.write c t)) = [] := by
  induction l with
  | nil => rfl
  | cons t l ih => simpa [leaves] using ih

/-- The commands other than `/kick` write lines and do nothing else. -/
theorem list_users_leaves (srv : Server) (client : Client) :
    ∃ new, list_users srv client = { srv with out := srv.out ++ new } ∧ leaves new = [] := by
  refine ⟨(srv.clients.map (fun p => userLine p.2.username)).map
    (fun t => Effect.write client.conn t), ?_, leaves_map_write _ _⟩
  rw [list_users_eq, List.map_map]
  rfl

theorem direct_message_leaves (srv : Server) (client : Client) (tokens : List (List Char)) :
    ∃ new, direct_message srv client tokens = { srv with out := srv.out ++ new } ∧
      leaves new = [] := by
  unfold direct_message
  split
  · exact ⟨_, rfl, rfl⟩
  · simp only
    split <;> exact ⟨_, rfl, rfl⟩

theorem user_info_leaves (env : Env) (srv : Server) (client : Client)
    (tokens : List (List Char)) :
    ∃ new, user_info env srv client tokens = { srv with out := srv.out ++ new } ∧
      leaves new = [] := by
  unfold user_info
  split
  · exact ⟨_, rfl, rfl⟩
  · simp only
    split <;> exact ⟨_, rfl, rfl⟩

/-- The Leave requests of `/kick`: the key of the first entry with the given name. -/
theorem kick_user_leaves (srv : Server) (client : Client) (tokens : List (List Char)) :
    ∃ new, kick_user srv client tokens = { srv with out := srv.out ++ new } ∧
      leaves new =
        (if tokens.length < 2 then none
         else (srv.clients.find? (fun p => p.2.username = tokens.getD 1 [])).map
           Prod.fst).toList := by
  unfold kick_user
  split
  · exact ⟨_, rfl, rfl⟩
  · simp only
    cases hf : srv.clients.find? (fun p => decide (p.2.username = tokens.getD 1 [])) with
    | none => exact ⟨_, rfl, rfl⟩
    | some p =>
      refine ⟨[Effect.write p.2.conn "🚩 You have been kicked from the server 🚩\n".toList,
        Effect.log ("irc-server > [".toList ++ tokens.getD 1 [] ++ "] was kicked\n".toList),
        Effect.leave p.1], ?_, rfl⟩
      simp [emit]

/-- A line that does not start with `/` after trimming asks for no disconnection. -/
theorem kickTarget_of_not_command (m : List (Conn × Client)) (raw : List Char)
    (h : HasPrefix (TrimSpace raw) "/".toList = false) : kickTarget m raw = none := by
  unfold kickTarget
  simp only
  split
  · rename_i hk
    exfalso
    cases ht : tokenize raw with
    | nil => exact Split_ne_nil _ _ ht
    | cons t ts =>
      rw [ht, List.headD_cons] at hk
      rw [hk] at ht
      obtain ⟨r, hr⟩ := @Split_head_cons (TrimSpace raw) ' ' '/' "kick".toList ts ht
      rw [hr] at h
      simp [HasPrefix] at h
  · rfl

/-- What one pass through the loop of handle_client does: the registry is kept, effects
are only added, and the Leave requests among them are the kick of the administrator, if
the line is an effective one. -/
theorem handle_line_leaves (env : Env) (srv : Server) (client : Client) (raw : List Char) :
    ∃ new, handle_line env srv client raw = { srv with out := srv.out ++ new } ∧
      leaves new = (if client.isAdmin then kickTarget srv.clients raw else none).toList := by
  by_cases hpre : HasPrefix (TrimSpace raw) "/".toList = true
  · have hne : ¬ (TrimSpace raw).length = 0 := by
      intro h0
      rw [List.length_eq_zero] at h0
      rw [h0] at hpre
      simp [HasPrefix] at hpre
    have hl : handle_line env srv client raw = dispatch env srv client (tokenize raw) := by
      unfold handle_line tokenize
      simp only [hne, hpre, if_true, if_false]
    rw [hl]
    unfold dispatch
    cases hrole : client.isAdmin with
    | false =>
      simp only [Bool.false_eq_true, if_false, Option.toList]
      unfold dispatch_member
      simp only
      split
      · exact list_users_leaves srv client
      · split
        · exact direct_message_leaves srv client _
        · split
          · exact ⟨_, rfl, rfl⟩
          · split
            · exact user_info_leaves env srv client _
            · exact ⟨_, rfl, rfl⟩
    | true =>
      simp only [if_true]
      unfold dispatch_admin kickTarget
      simp only
      by_cases hk : (tokenize raw).headD [] = "/kick".toList
      · rw [if_pos hk]
        have e1 : ¬ (tokenize raw).headD [] = "/users".toList := by rw [hk]; decide
        have e2 : ¬ (tokenize raw).headD [] = "/msg".toList := by rw [hk]; decide
        have e3 : ¬ (tokenize raw).headD [] = "/time".toList := by rw [hk]; decide
        have e4 : ¬ (tokenize raw).headD [] = "/user".toList := by rw [hk]; decide
        rw [if_neg e1, if_neg e2, if_neg e3, if_neg e4, if_pos hk]
        exact kick_user_leaves srv client (tokenize raw)
      · rw [if_neg hk]
        simp only [Option.toList, hk, if_false]
        split
        · exact list_users_leaves srv client
        · split
          · exact direct_message_leaves srv client _
          · split
            · exact ⟨_, rfl, rfl⟩
            · split
              · exact user_info_leaves env srv client _
              · exact ⟨_, rfl, rfl⟩
  · have hpre : HasPrefix (TrimSpace raw) "/".toList = false := by
      simpa using hpre
    rw [kickTarget_of_not_command srv.clients raw hpre]
    have hnil : (if client.isAdmin then (none : Option Conn) else none).toList = [] := by
      cases client.isAdmin <;> rfl
    rw [hnil]
    unfold handle_line
    simp only [hpre, Bool.false_eq_true, if_false]
    split
    · exact ⟨[], by simp, rfl⟩
    · exact ⟨_, rfl, rfl⟩

/-- The effects of a whole session: what the lines add, then the log line of the read
error, then the Leave for the own connection. -/
theorem handle_client_run (env : Env) (client : Client)
    (reads : List (List (Conn × Client) × List Char)) (stop : ReadError) (srv : Server) :
    ∃ body : List Effect, ∃ t : List Char,
      (handle_client env client srv reads stop).out =
        srv.out ++ body ++ [Effect.log t, Effect.leave client.conn] ∧
      leaves body = kickRequests client reads := by
  induction reads generalizing srv with
  | nil =>
    cases stop with
    | eof =>
      exact ⟨[], "irc-server > The connection is closed.\n".toList,
        by simp only [handle_client, emit_out, List.append_nil, List.append_assoc,
          List.singleton_append], rfl⟩
    | other e =>
      exact ⟨[], "irc-server > Failed to read from the server: ".toList ++ e ++ "\n".toList,
        by simp only [handle_client, emit_out, List.append_nil, List.append_assoc,
          List.singleton_append], rfl⟩
  | cons r reads ih =>
    obtain ⟨snapshot, raw⟩ := r
    obtain ⟨new, hnew, hl⟩ := handle_line_leaves env { srv with clients := snapshot } client raw
    obtain ⟨body, t, hout, hb⟩ := ih (handle_line env { srv with clients := snapshot } client raw)
    refine ⟨new ++ body, t, ?_, ?_⟩
    · rw [handle_client, hout, hnew]
      simp
    · rw [leaves_append, hl, hb]
      unfold kickRequests
      rw [List.filterMap_cons]
      cases hc : (if client.isAdmin then kickTarget snapshot raw else none) <;> simp [hc]


/-! ## The registry invariant -/

theorem RegistryOk_start : RegistryOk start_server.clients := by
  decide

theorem RegistryOk_mapDelete {m : List (Conn × Client)} (h : RegistryOk m) (k : Conn) :
    RegistryOk (mapDelete m k) := by
  unfold mapDelete
  refine ⟨?_, fun p hp => h.2 p (List.mem_filter.mp hp).1⟩
  exact h.1.sublist ((List.filter_sublist m).map Prod.fst)

theorem RegistryOk_mapSet {m : List (Conn × Client)} (h : RegistryOk m) (k : Conn)
    (v : Client) (hv : v.conn = k) : RegistryOk (mapSet m k v) := by
  have hd := RegistryOk_mapDelete h k
  unfold mapSet
  refine ⟨?_, ?_⟩
  · rw [List.map_append, List.nodup_append]
    refine ⟨hd.1, by simp, ?_⟩
    intro a ha hb
    simp only [List.map_cons, List.map_nil, List.mem_singleton] at hb
    subst hb
    obtain ⟨p, hp, hpa⟩ := List.mem_map.mp ha
    have := (List.mem_filter.mp hp).2
    simp [hpa] at this
  · intro p hp
    rcases List.mem_append.mp hp with hp | hp
    · exact hd.2 p hp
    · rw [List.mem_singleton] at hp
      subst hp
      exact hv

/-- Processing a Join keeps the registry a Go map of clients under their connections. -/
theorem RegistryOk_handle_conection {srv : Server} (h : RegistryOk srv.clients) (conn : Conn)
    (scanned : Option (List Char)) : RegistryOk (handle_conection srv conn scanned).clients := by
  have hc : (handle_conection srv conn scanned).clients =
      mapSet srv.clients conn ⟨conn, scanned.getD [], scanned.getD [] == "admin".toList⟩ := by
    unfold handle_conection
    simp only
    split <;> rfl
  rw [hc]
  exact RegistryOk_mapSet h conn _ rfl

/-- Processing a Leave keeps the registry a Go map of clients under their connections. -/
theorem RegistryOk_close_conection {srv : Server} (h : RegistryOk srv.clients) (conn : Conn) :
    RegistryOk (close_conection srv conn).clients := by
  unfold close_conection
  cases hg : mapGet srv.clients conn with
  | none => simpa using h
  | some c => simpa using RegistryOk_mapDelete h conn

/-! ## Tokens -/

theorem Join_cons_cons (sep x y : List Char) (l : List (List Char)) :
    Join (x :: y :: l) sep = x ++ sep ++ Join (y :: l) sep := by
  simp [Join, List.intercalate, List.intersperse]

theorem Join_Split (s : List Char) (sep : Char) : Join (Split s sep) [sep] = s := by
  induction s with
  | nil => simp [Split, Join, List.intercalate]
  | cons c cs ih =>
    unfold Split
    split
    · rename_i h
      cases hs : Split cs sep with
      | nil => exact absurd hs (Split_ne_nil cs sep)
      | cons t ts =>
        rw [hs] at ih
        rw [Join_cons_cons, ih, h]
        simp
    · cases hs : Split cs sep with
      | nil => exact absurd hs (Split_ne_nil cs sep)
      | cons t ts =>
        rw [hs] at ih
        simp only
        cases ts with
        | nil =>
          simp only [Join, List.intercalate, List.intersperse, List.flatten] at ih ⊢
          simpa using ih
        | cons t2 ts =>
          rw [Join_cons_cons] at ih ⊢
          simp [← ih]

theorem Split_no_sep (s : List Char) (sep : Char) : ∀ t ∈ Split s sep, sep ∉ t := by
  induction s with
  | nil => simp [Split]
  | cons c cs ih =>
    unfold Split
    split
    · intro t ht
      rcases List.mem_cons.mp ht with rfl | ht
      · simp
      · exact ih t ht
    · rename_i h
      cases hs : Split cs sep with
      | nil => exact absurd hs (Split_ne_nil cs sep)
      | cons t ts =>
        rw [hs] at ih
        intro u hu
        rcases List.mem_cons.mp hu with rfl | hu
        · intro hmem
          rcases List.mem_cons.mp hmem with e | e
          · exact h e.symm
          · exact ih t (List.mem_cons_self _ _) e
        · exact ih u (List.mem_cons_of_mem _ hu)

theorem Split_length (s : List Char) (sep : Char) :
    (Split s sep).length = s.count sep + 1 := by
  induction s with
  | nil => simp [Split]
  | cons c cs ih =>
    unfold Split
    split
    · rename_i h
      simp [ih, h]
    · rename_i h
      cases hs : Split cs sep with
      | nil => exact absurd hs (Split_ne_nil cs sep)
      | cons t ts =>
        rw [hs] at ih
        simp only [List.length_cons] at ih ⊢
        rw [List.count_cons_of_ne (fun e => h e.symm)]
        exact ih

theorem Fields_cons_space (c : Char) (cs : List Char) (h : isSpace c = true) :
    Fields (c :: cs) = Fields cs := by
  cases cs with
  | nil => simp [Fields, h]
  | cons d ds => simp [Fields, h]

theorem Fields_concat_space (s : List Char) (c : Char) (h : isSpace c = true) :
    Fields (s ++ [c]) = Fields s := by
  induction s with
  | nil => simp [Fields, h]
  | cons a s ih =>
    by_cases ha : isSpace a = true
    · rw [List.cons_append, Fields_cons_space a _ ha, Fields_cons_space a _ ha, ih]
    · cases s with
      | nil => simp [Fields, h, ha]
      | cons d ds =>
        simp only [List.cons_append] at ih ⊢
        simp only [Fields, ha, ih]

theorem Fields_dropWhile (s : List Char) : Fields (s.dropWhile isSpace) = Fields s := by
  induction s with
  | nil => rfl
  | cons c cs ih =>
    by_cases hc : isSpace c = true
    · rw [List.dropWhile_cons_of_pos hc, ih, Fields_cons_space c cs hc]
    · rw [List.dropWhile_cons_of_neg hc]

theorem Fields_rdropWhile (s : List Char) : Fields (s.rdropWhile isSpace) = Fields s := by
  induction s using List.reverseRecOn with
  | nil => rfl
  | append_singleton l a ih =>
    by_cases ha : isSpace a = true
    · rw [List.rdropWhile_concat_pos _ _ _ ha, ih, Fields_concat_space l a ha]
    · rw [List.rdropWhile_concat_neg _ _ _ ha]

theorem Fields_TrimSpace (s : List Char) : Fields (TrimSpace s) = Fields s := by
  unfold TrimSpace
  rw [Fields_rdropWhile, Fields_dropWhile]

theorem Fields_ne_nil (s : List Char) : ∀ t ∈ Fields s, t ≠ [] := by
  induction s with
  | nil => simp [Fields]
  | cons c cs ih =>
    cases cs with
    | nil =>
      by_cases hc : isSpace c = true <;> simp [Fields, hc]
    | cons d ds =>
      by_cases hc : isSpace c = true
      · simpa [Fields, hc] using ih
      · by_cases hd : isSpace d = true
        · simp only [Fields, hc, hd, if_true, if_false, Bool.false_eq_true]
          intro t ht
          rcases List.mem_cons.mp ht with rfl | ht
          · simp
          · exact ih t ht
        · simp only [Fields, hc, hd, if_false, Bool.false_eq_true]
          cases hf : Fields (d :: ds) with
          | nil => simp
          | cons t ts =>
            rw [hf] at ih
            intro u hu
            rcases List.mem_cons.mp hu with rfl | hu
            · simp
            · exact ih u (List.mem_cons_of_mem _ hu)

theorem isSpace_space : isSpace ' ' = true := by decide

theorem spacedWords_head {c : Char} {cs : List Char} (h : spacedWords (c :: cs) = true) :
    isSpace c = false := by
  cases cs with
  | nil => simpa [spacedWords] using h
  | cons d ds =>
    simp only [spacedWords, Bool.and_eq_true, Bool.not_eq_true'] at h
    exact h.1

/-- On a string of words separated by single spaces, splitting at spaces and tokenizing
by white space agree. -/
theorem Split_eq_Fields_aux (n : Nat) : ∀ s : List Char, s.length ≤ n →
    spacedWords s = true → Split s ' ' = Fields s := by
  induction n with
  | zero =>
    intro s hs hw
    have : s = [] := List.length_eq_zero.mp (Nat.le_zero.mp hs)
    subst this
    simp [spacedWords] at hw
  | succ n ih =>
    intro s hs hw
    match s, hs, hw with
    | [], _, hw => simp [spacedWords] at hw
    | [c], _, hw =>
      have hc : isSpace c = false := spacedWords_head hw
      have hne : c ≠ ' ' := by
        intro e
        rw [e, isSpace_space] at hc
        exact Bool.noConfusion hc
      simp [Split, Fields, hc, hne]
    | c :: d :: ds, hs, hw =>
      have hc : isSpace c = false := spacedWords_head hw
      have hne : c ≠ ' ' := by
        intro e
        rw [e, isSpace_space] at hc
        exact Bool.noConfusion hc
      simp only [spacedWords, Bool.and_eq_true, Bool.not_eq_true'] at hw
      by_cases hd : d = ' '
      · subst hd
        have hds : spacedWords ds = true := by simpa using hw.2
        have hlen : ds.length ≤ n := by
          simp only [List.length_cons] at hs
          omega
        have e := ih ds hlen hds
        have hsp : Split (c :: ' ' :: ds) ' ' = [c] :: Split ds ' ' := by
          simp [Split, hne]
        rw [hsp, e]
        cases ds with
        | nil => simp [spacedWords] at hds
        | cons x xs =>
          simp [Fields, hc, isSpace_space]
      · have hds : spacedWords (d :: ds) = true := by simpa [hd] using hw.2
        have hdsp : isSpace d = false := spacedWords_head hds
        have hlen : (d :: ds).length ≤ n := by
          simp only [List.length_cons] at hs ⊢
          omega
        have e := ih (d :: ds) hlen hds
        have hsp : Split (c :: d :: ds) ' ' =
            (match Split (d :: ds) ' ' with
              | [] => [[c]]
              | t :: ts => (c :: t) :: ts) := by
          rw [Split]
          simp [hne]
        rw [hsp, e]
        simp [Fields, hc, hdsp]

theorem Split_eq_Fields (s : List Char) (h : spacedWords s = true) :
    Split s ' ' = Fields s :=
  Split_eq_Fields_aux s.length s (Nat.le_refl _) h

/-! ## The claims -/

/-- C1: for a client that is not the administrator, a line whose first token is `/kick`,
with any arguments and any registry, leaves the registry as it is and does exactly one
thing: it writes the "not allowed" line to the issuer. No `leave` or `msg` send is made,
no other connection is written to, and the usage error of `/kick` is not produced. -/
theorem member_kick_not_allowed (env : Env) (srv : Server) (client : Client)
    (raw : List Char) (args : List (List Char))
    (hrole : client.isAdmin = false) (htok : tokenize raw = "/kick".toList :: args) :
    (handle_line env srv client raw).clients = srv.clients ∧
    (handle_line env srv client raw).out =
      srv.out ++ [Effect.write client.conn "Not allowed command, must be admin 👮‍♂️\n".toList] := by
  have hcmd := handle_line_command env srv client raw "kick".toList args htok
  rw [hcmd, htok]
  unfold dispatch dispatch_member
  simp [hrole]

/-- Witness of C1: the member `bob` sends a bare `/kick`. -/
theorem member_kick_not_allowed_witness :
    bobClient.isAdmin = false ∧ tokenize "/kick\n".toList = "/kick".toList :: [] ∧
    (handle_line quietEnv smallRoom bobClient "/kick\n".toList).clients = smallRoom.clients ∧
    (handle_line quietEnv smallRoom bobClient "/kick\n".toList).out =
      smallRoom.out ++
        [Effect.write bobClient.conn "Not allowed command, must be admin 👮‍♂️\n".toList] :=
  ⟨rfl, by decide,
    member_kick_not_allowed quietEnv smallRoom bobClient "/kick\n".toList [] rfl (by decide)⟩

/-- Counterexample to C2 as stated: the member `bob` sends the unknown command `/foo`
and is answered with the "not allowed" line, not with the "invalid command" line. -/
theorem member_unknown_command_counterexample :
    (handle_line quietEnv smallRoom bobClient "/foo\n".toList).out =
      [Effect.write 2 "Not allowed command, must be admin 👮‍♂️\n".toList] ∧
    (handle_line quietEnv smallRoom bobClient "/foo\n".toList).out ≠
      [Effect.write 2 "Invalid command ⁉️\n".toList] := by
  decide

/-- C2, amended: a command line whose command name is none of `/users`, `/msg`, `/time`,
`/user`, `/kick` makes handle_client write exactly one line, to the issuer: the "invalid
command" line when the issuer is the administrator, the "not allowed" line when the
issuer is a member. Nothing else is written, no `leave` or `msg` send is made and the
registry stays as it is. -/
theorem unknown_command_reply (env : Env) (srv : Server) (client : Client)
    (raw t : List Char) (ts : List (List Char))
    (htok : tokenize raw = ('/' :: t) :: ts)
    (hcmd : '/' :: t ∉ ["/users".toList, "/msg".toList, "/time".toList, "/user".toList,
      "/kick".toList]) :
    (handle_line env srv client raw).clients = srv.clients ∧
    (handle_line env srv client raw).out = srv.out ++
      [Effect.write client.conn
        (if client.isAdmin then "Invalid command ⁉️\n".toList
         else "Not allowed command, must be admin 👮‍♂️\n".toList)] := by
  rw [handle_line_command env srv client raw t ts htok, htok]
  simp only [List.mem_cons, List.mem_singleton, List.not_mem_nil, or_false, not_or] at hcmd
  obtain ⟨h1, h2, h3, h4, h5⟩ := hcmd
  unfold dispatch dispatch_admin dispatch_member
  cases client.isAdmin <;>
    simp only [List.headD_cons, if_neg h1, if_neg h2, if_neg h3, if_neg h4, if_neg h5,
      emit_clients, emit_out, if_true, if_false, Bool.false_eq_true, and_self]

/-- Witness of C2 (amended): the administrator sends `/foo bar`. -/
theorem unknown_command_reply_witness :
    tokenize "/foo bar\n".toList = ('/' :: "foo".toList) :: ["bar".toList] ∧
    ('/' :: "foo".toList ∉ ["/users".toList, "/msg".toList, "/time".toList, "/user".toList,
      "/kick".toList]) ∧
    (handle_line quietEnv smallRoom adminClient "/foo bar\n".toList).clients =
      smallRoom.clients ∧
    (handle_line quietEnv smallRoom adminClient "/foo bar\n".toList).out = smallRoom.out ++
      [Effect.write adminClient.conn
        (if adminClient.isAdmin then "Invalid command ⁉️\n".toList
         else "Not allowed command, must be admin 👮‍♂️\n".toList)] :=
  ⟨by decide, by decide,
    unknown_command_reply quietEnv smallRoom adminClient "/foo bar\n".toList "foo".toList
      ["bar".toList] (by decide) (by decide)⟩

/-- C10: `/users`, from an issuer of either role, writes to the issuer one line for every
entry of the registry, in the order the registry is visited: as many lines as the
registry has entries, the usernames on the lines being the usernames of the registry
(duplicates included). Nothing is written to another connection, no `leave` or `msg`
send is made, and the registry stays as it is. -/
theorem users_lists_registry (env : Env) (srv : Server) (client : Client)
    (args : List (List Char)) :
    (dispatch env srv client ("/users".toList :: args)).clients = srv.clients ∧
    ∃ lines : List (List Char),
      (dispatch env srv client ("/users".toList :: args)).out =
        srv.out ++ lines.map (fun l => Effect.write client.conn l) ∧
      lines.length = srv.clients.length ∧
      lines = (srv.clients.map (fun p => p.2.username)).map userLine ∧
      (lines.map userOfLine : Multiset (List Char)) =
        (srv.clients.map (fun p => p.2.username) : Multiset (List Char)) := by
  rw [dispatch_users, list_users_eq]
  refine ⟨rfl, (srv.clients.map (fun p => p.2.username)).map userLine, ?_, by simp, rfl, ?_⟩
  · simp [List.map_map, Function.comp_def]
  · congr 1
    rw [List.map_map]
    have : userOfLine ∘ userLine = id := funext userOfLine_userLine
    rw [this, List.map_id]

/-- C7: `/msg u text...` with at least one word of text, from any issuer, when a client
called `u` is registered: exactly one line is written, it goes to the connection of a
registered client whose username is `u`, and nothing is written to any other connection,
the issuer included. The line is `DM from <sender>: "text"` with the closing mark, where
`text` is the first word after `u` followed by every further word behind one space, so
the line contains the sender's username and the text. The registry stays as it is.
Several clients may be called `u`: the line goes to one of them. -/
theorem direct_message_delivers (env : Env) (srv : Server) (client : Client)
    (u t : List Char) (ts : List (List Char))
    (hex : ∃ p ∈ srv.clients, p.2.username = u) :
    (dispatch env srv client ("/msg".toList :: u :: t :: ts)).clients = srv.clients ∧
    ∃ p ∈ srv.clients, p.2.username = u ∧
      (dispatch env srv client ("/msg".toList :: u :: t :: ts)).out = srv.out ++
        [Effect.write p.2.conn ("DM from <".toList ++ client.username ++ ">: \"".toList ++
          (t ++ (ts.map (fun w => ' ' :: w)).flatten) ++ "\" 😶‍🌫️\n".toList)] ∧
      client.username <:+: ("DM from <".toList ++ client.username ++ ">: \"".toList ++
          (t ++ (ts.map (fun w => ' ' :: w)).flatten) ++ "\" 😶‍🌫️\n".toList) ∧
      (t ++ (ts.map (fun w => ' ' :: w)).flatten) <:+: ("DM from <".toList ++
          client.username ++ ">: \"".toList ++
          (t ++ (ts.map (fun w => ' ' :: w)).flatten) ++ "\" 😶‍🌫️\n".toList) := by
  obtain ⟨p, hfind, hmem, hu⟩ := find_user_some hex
  have hd : dispatch env srv client ("/msg".toList :: u :: t :: ts) =
      direct_message srv client ("/msg".toList :: u :: t :: ts) := by
    unfold dispatch dispatch_admin dispatch_member
    cases client.isAdmin <;> simp
  have hm : direct_message srv client ("/msg".toList :: u :: t :: ts) =
      emit srv (Effect.write p.2.conn ("DM from <".toList ++ client.username ++
        ">: \"".toList ++ (t ++ (ts.map (fun w => ' ' :: w)).flatten) ++
        "\" 😶‍🌫️\n".toList)) := by
    unfold direct_message
    simp only [List.length_cons, List.getD_cons_succ, List.getD_cons_zero, List.drop_succ_cons,
      List.drop_zero]
    rw [if_neg (by omega), hfind, Join_space]
  rw [hd, hm]
  refine ⟨rfl, p, hmem, hu, rfl, ?_, ?_⟩
  · exact ⟨"DM from <".toList, ">: \"".toList ++ (t ++ (ts.map (fun w => ' ' :: w)).flatten) ++
      "\" 😶‍🌫️\n".toList, by simp⟩
  · exact ⟨"DM from <".toList ++ client.username ++ ">: \"".toList, "\" 😶‍🌫️\n".toList,
      by simp⟩

/-- Witness of C7: the administrator sends `/msg bob hello there`; the one line written
is `DM from <admin>: "hello there"` with the closing mark, on the connection of `bob`. -/
theorem direct_message_delivers_witness :
    (∃ p ∈ smallRoom.clients, p.2.username = "bob".toList) ∧
    (dispatch quietEnv smallRoom adminClient
        ("/msg".toList :: "bob".toList :: "hello".toList :: ["there".toList])).clients =
      smallRoom.clients ∧
    (dispatch quietEnv smallRoom adminClient
        ("/msg".toList :: "bob".toList :: "hello".toList :: ["there".toList])).out =
      [Effect.write 2 "DM from <admin>: \"hello there\" 😶‍🌫️\n".toList] ∧
    "hello there".toList <:+: "DM from <admin>: \"hello there\" 😶‍🌫️\n".toList := by
  obtain ⟨hreg, p, hp, hu, hout, _, htext⟩ :=
    direct_message_delivers quietEnv smallRoom adminClient "bob".toList "hello".toList
      ["there".toList] ⟨(2, bobClient), by decide, rfl⟩
  have hp2 : p = (2, bobClient) := by
    simp only [smallRoom, List.mem_cons, List.mem_singleton, List.not_mem_nil, or_false] at hp
    rcases hp with rfl | rfl
    · exact absurd hu (by decide)
    · rfl
  subst hp2
  have hrun : (dispatch quietEnv smallRoom adminClient
      ("/msg".toList :: "bob".toList :: "hello".toList :: ["there".toList])).out =
      [Effect.write 2 "DM from <admin>: \"hello there\" 😶‍🌫️\n".toList] := by
    decide
  exact ⟨⟨(2, bobClient), by decide, rfl⟩, hreg, hout.symm.trans (hout.trans hrun), htext⟩

/-- C4 as stated fails: after `bob` (connection 2) has been removed by a first Leave, a
second Leave for the same connection calls `Close` on the handle again. -/
theorem second_leave_closes_again :
    mapGet (close_conection smallRoom 2).clients 2 = none ∧
    closes (close_conection smallRoom 2).out = [2] ∧
    closes (close_conection (close_conection smallRoom 2) 2).out = [2, 2] := by
  decide

/-- C4, amended: processing a Leave for a connection that is not in the registry leaves
the registry as it is, logs nothing and raises no error, and calls `Close` on the handle
once more (the result of the call is dropped). Consequently, for every server state,
processing Leave(c) twice leaves the same registry as processing it once, with `c`
absent, and calls `Close` on the handle twice. -/
theorem leave_absent_only_closes (srv : Server) (conn : Conn)
    (habsent : mapGet srv.clients conn = none) :
    (close_conection srv conn).clients = srv.clients ∧
    (close_conection srv conn).out = srv.out ++ [Effect.close conn] ∧
    ∀ before : Server,
      mapGet (close_conection before conn).clients conn = none ∧
      (close_conection (close_conection before conn) conn).clients =
        (close_conection before conn).clients ∧
      (close_conection (close_conection before conn) conn).out =
        (close_conection before conn).out ++ [Effect.close conn] ∧
      closes (close_conection before conn).out = closes before.out ++ [conn] ∧
      closes (close_conection (close_conection before conn) conn).out =
        closes before.out ++ [conn, conn] := by
  have key : ∀ s : Server, mapGet s.clients conn = none →
      close_conection s conn = emit s (Effect.close conn) := by
    intro s hs
    unfold close_conection
    rw [hs]
  have gone : ∀ s : Server, mapGet (close_conection s conn).clients conn = none := by
    intro s
    unfold close_conection
    cases hg : mapGet s.clients conn with
    | none => simpa using hg
    | some c => simpa using mapGet_mapDelete s.clients conn
  have once : ∀ s : Server, closes (close_conection s conn).out = closes s.out ++ [conn] := by
    intro s
    unfold close_conection
    cases hg : mapGet s.clients conn with
    | none => simp [closes_append, closes]
    | some c => simp [closes_append, closes]
  refine ⟨by rw [key srv habsent]; rfl, by rw [key srv habsent]; rfl, fun before => ?_⟩
  refine ⟨gone before, ?_, ?_, once before, ?_⟩
  · rw [key _ (gone before)]
    rfl
  · rw [key _ (gone before)]
    rfl
  · rw [once, once, List.append_assoc]
    rfl

/-- Witness of C4 (amended): connection 9 was never registered. -/
theorem leave_absent_only_closes_witness :
    mapGet smallRoom.clients 9 = none ∧
    (close_conection smallRoom 9).clients = smallRoom.clients ∧
    (close_conection smallRoom 9).out = smallRoom.out ++ [Effect.close 9] :=
  ⟨by decide, (leave_absent_only_closes smallRoom 9 (by decide)).1,
    (leave_absent_only_closes smallRoom 9 (by decide)).2.1⟩

/-- C5 as stated fails: a connection whose registration read yields nothing is not
abandoned. It is registered, under the empty username, and a session is started for it.
A connection that sends `admin` without a line end before its stream closes is registered
too, as the administrator. -/
theorem failed_registration_is_registered :
    mapGet (handle_conection start_server 7 none).clients 7 = some ⟨7, [], false⟩ ∧
    (handle_conection start_server 7 none).clients ≠ start_server.clients ∧
    Effect.spawn ⟨7, [], false⟩ ∈ (handle_conection start_server 7 none).out ∧
    mapGet (handle_conection start_server 8 (some "admin".toList)).clients 8 =
      some ⟨8, "admin".toList, true⟩ := by
  decide

/-- C5, amended: processing a Join never abandons the connection. For every registry,
every connection and every outcome of the registration scan, handle_conection enters the
client under the text `scanner.Text()` then holds: the token, when the scan yielded one,
and the empty username, as a member, when it yielded none. The client is the
administrator exactly when that text is `admin`. The other entries of the registry are
kept. Apart from the log lines (admission, and promotion for the administrator) the only
effect is the start of a session for the client, which comes last; the connection is
not closed. -/
theorem join_always_registers (srv : Server) (conn : Conn) (scanned : Option (List Char)) :
    mapGet (handle_conection srv conn scanned).clients conn =
      some ⟨conn, scanned.getD [], scanned.getD [] == "admin".toList⟩ ∧
    mapDelete (handle_conection srv conn scanned).clients conn = mapDelete srv.clients conn ∧
    (handle_conection srv conn scanned).out.getLast? =
      some (Effect.spawn ⟨conn, scanned.getD [], scanned.getD [] == "admin".toList⟩) ∧
    (scanned = none →
      mapGet (handle_conection srv conn scanned).clients conn = some ⟨conn, [], false⟩) ∧
    (handle_conection srv conn scanned).out = srv.out ++
      [Effect.log ("irc-server > New connected user [".toList ++ scanned.getD [] ++
        "]\n".toList)] ++
      (if scanned.getD [] = "admin".toList then
        [Effect.log ("irc-server > [".toList ++ scanned.getD [] ++
          "] was promoted as the channel ADMIN\n".toList)]
       else []) ++
      [Effect.spawn ⟨conn, scanned.getD [], scanned.getD [] == "admin".toList⟩] := by
  have hc : (handle_conection srv conn scanned).clients =
      mapSet srv.clients conn ⟨conn, scanned.getD [], scanned.getD [] == "admin".toList⟩ := by
    unfold handle_conection
    simp only
    split <;> rfl
  refine ⟨by rw [hc, mapGet_mapSet], ?_, ?_, ?_, ?_⟩
  · rw [hc]
    unfold mapSet mapDelete
    simp [List.filter_append, List.filter_filter]
  · unfold handle_conection
    simp
  · intro hnone
    rw [hc, mapGet_mapSet, hnone]
    rfl
  · unfold handle_conection
    simp only
    by_cases ha : scanned.getD [] = "admin".toList
    · have hb : (scanned.getD [] == "admin".toList) = true := beq_iff_eq.mpr ha
      rw [if_pos hb, if_pos ha]
      simp only [emit, List.append_assoc]
    · have hb : ¬ (scanned.getD [] == "admin".toList) = true := fun h => ha (beq_iff_eq.mp h)
      rw [if_neg hb, if_neg ha]
      simp only [emit, List.append_nil, List.append_assoc]

/-- C9: processing a Broadcast of `msg`, for every registry (as the Go map keeps it) and
every pattern of write failures, attempts exactly one write of `msg` followed by a
newline on every registered connection and none on any other connection: a failed write
only adds a log line and the loop goes on. Apart from these writes and log lines nothing
is done (no `leave` or `msg` send, no `Close`), and the registry stays as it is. -/
theorem broadcast_reaches_all (env : Env) (srv : Server) (msg : List Char)
    (hok : RegistryOk srv.clients) :
    (handle_message env srv msg).clients = srv.clients ∧
    ∃ new : List Effect,
      (handle_message env srv msg).out = srv.out ++ new ∧
      (∀ c, writesTo c new =
        if c ∈ srv.clients.map Prod.fst then [msg ++ "\n".toList] else []) ∧
      (∀ e ∈ new, (∃ c, e = Effect.write c (msg ++ "\n".toList)) ∨ ∃ t, e = Effect.log t) := by
  obtain ⟨new, hnew, hw, hk⟩ := handle_message_fold env msg srv.clients srv
  unfold handle_message
  rw [hnew]
  refine ⟨rfl, new, rfl, fun c => ?_, hk⟩
  rw [hw c]
  have hsame : srv.clients.filter (fun p => decide (p.2.conn = c)) =
      srv.clients.filter (fun p => decide (p.1 = c)) := by
    apply List.filter_congr
    intro p hp
    rw [hok.2 p hp]
  rw [hsame]
  have hlen := filter_key_length hok.1 c
  split
  · rename_i hc
    rw [if_pos hc] at hlen
    obtain ⟨q, hq⟩ := List.length_eq_one.mp hlen
    rw [hq]
    rfl
  · rename_i hc
    rw [if_neg hc] at hlen
    rw [List.length_eq_zero] at hlen
    rw [hlen]
    rfl

/-- Witness of C9: a broadcast in the room of the administrator and `bob`, where every
write to `bob` fails. -/
theorem broadcast_reaches_all_witness :
    RegistryOk smallRoom.clients ∧
    ((handle_message lossyEnv smallRoom "bob> hi".toList).clients = smallRoom.clients ∧
    ∃ new : List Effect,
      (handle_message lossyEnv smallRoom "bob> hi".toList).out = smallRoom.out ++ new ∧
      (∀ c, writesTo c new =
        if c ∈ smallRoom.clients.map Prod.fst then ["bob> hi".toList ++ "\n".toList] else []) ∧
      (∀ e ∈ new, (∃ c, e = Effect.write c ("bob> hi".toList ++ "\n".toList)) ∨
        ∃ t, e = Effect.log t)) :=
  ⟨by decide, broadcast_reaches_all lossyEnv smallRoom "bob> hi".toList (by decide)⟩

/-- C3: `/kick name` from the administrator, for every registry as the Go map keeps it.
When a client called `name` is registered, exactly one line is written, the kick notice,
to the connection of one such client; after it (and a log line) a Leave for that same
connection is sent; the command itself does not touch the registry; and processing a
Leave for that connection, in whatever state the server then is, leaves the registry
without that connection and calls `Close` on its handle. When no client called `name`
is registered, the only effect is the "does not exist" line written to the issuer: no
Leave, no write to another connection, registry as it was. -/
theorem admin_kick (env : Env) (srv : Server) (client : Client) (name : List Char)
    (rest : List (List Char)) (hadmin : client.isAdmin = true)
    (hok : RegistryOk srv.clients) :
    (dispatch env srv client ("/kick".toList :: name :: rest)).clients = srv.clients ∧
    ((∃ p ∈ srv.clients, p.2.username = name) →
      ∃ k c, (k, c) ∈ srv.clients ∧ c.username = name ∧
        (dispatch env srv client ("/kick".toList :: name :: rest)).out = srv.out ++
          [Effect.write k "🚩 You have been kicked from the server 🚩\n".toList,
           Effect.log ("irc-server > [".toList ++ name ++ "] was kicked\n".toList),
           Effect.leave k] ∧
        ∀ later : Server,
          mapGet (close_conection later k).clients k = none ∧
          (close_conection later k).clients = mapDelete later.clients k ∧
          (close_conection later k).out.getLast? = some (Effect.close k)) ∧
    ((¬ ∃ p ∈ srv.clients, p.2.username = name) →
      (dispatch env srv client ("/kick".toList :: name :: rest)).out = srv.out ++
        [Effect.write client.conn
          ("The <user> ".toList ++ name ++ " does not exist 🤠\n".toList)]) := by
  have hd : dispatch env srv client ("/kick".toList :: name :: rest) =
      kick_user srv client ("/kick".toList :: name :: rest) := by
    unfold dispatch dispatch_admin
    simp [hadmin]
  have hlen : ¬ ("/kick".toList :: name :: rest).length < 2 := by
    simp only [List.length_cons]
    omega
  rw [hd]
  refine ⟨?_, ?_, ?_⟩
  · unfold kick_user
    rw [if_neg hlen]
    simp only [List.getD_cons_succ, List.getD_cons_zero]
    split <;> rfl
  · intro hex
    obtain ⟨p, hfind, hmem, hu⟩ := find_user_some hex
    refine ⟨p.1, p.2, hmem, hu, ?_, ?_⟩
    · unfold kick_user
      rw [if_neg hlen]
      simp only [List.getD_cons_succ, List.getD_cons_zero, hfind, hok.2 p hmem, emit_out,
        List.append_assoc, List.singleton_append, List.cons_append, List.nil_append]
    · intro later
      have hclients : (close_conection later p.1).clients = mapDelete later.clients p.1 := by
        unfold close_conection
        cases hg : mapGet later.clients p.1 with
        | none => simpa using (mapDelete_of_mapGet_none hg).symm
        | some c => simp
      refine ⟨?_, hclients, ?_⟩
      · rw [hclients]
        exact mapGet_mapDelete later.clients p.1
      · unfold close_conection
        simp
  · intro hnone
    unfold kick_user
    rw [if_neg hlen]
    simp only [List.getD_cons_succ, List.getD_cons_zero, find_user_none hnone, emit_out]

/-- Witness of C3: the administrator sends `/kick bob` in the room of the administrator
and `bob`. -/
theorem admin_kick_witness :
    adminClient.isAdmin = true ∧ RegistryOk smallRoom.clients ∧
    (∃ p ∈ smallRoom.clients, p.2.username = "bob".toList) ∧
    (dispatch quietEnv smallRoom adminClient ("/kick".toList :: "bob".toList :: [])).clients =
      smallRoom.clients ∧
    (dispatch quietEnv smallRoom adminClient ("/kick".toList :: "bob".toList :: [])).out =
      [Effect.write 2 "🚩 You have been kicked from the server 🚩\n".toList,
       Effect.log "irc-server > [bob] was kicked\n".toList, Effect.leave 2] :=
  ⟨rfl, by decide, ⟨(2, bobClient), by decide, rfl⟩,
    (admin_kick quietEnv smallRoom adminClient "bob".toList [] rfl (by decide)).1, by decide⟩

/-- C6 as stated fails: the administrator, alone in the room, sends `/kick admin` and the
stream then ends. The session raises two Leave requests for its own connection, one from
the kick and one on termination. -/
theorem self_kick_raises_two_leaves :
    leaves selfKickSession.out = [1, 1] ∧
    (leaves selfKickSession.out).count adminClient.conn = 2 := by
  decide

/-- C6, amended: for every session and every finite sequence of lines followed by the end
of the stream or a read error, the session raises exactly one Leave request for its own
connection on termination, as the last thing it does, never zero. Before that, a
member's session raises no Leave at all, so exactly one over its whole run; the
administrator's session raises one Leave for every `/kick` line that names a registered
client, for that client's connection, which is a further Leave for its own connection
whenever the client met is the issuer itself. -/
theorem session_leave_requests (env : Env) (client : Client) (srv : Server)
    (reads : List (List (Conn × Client) × List Char)) (stop : ReadError) :
    ∃ new : List Effect,
      (handle_client env client srv reads stop).out = srv.out ++ new ∧
      new.getLast? = some (Effect.leave client.conn) ∧
      leaves new = kickRequests client reads ++ [client.conn] ∧
      (client.isAdmin = false → leaves new = [client.conn]) ∧
      (leaves new).count client.conn = 1 + (kickRequests client reads).count client.conn := by
  obtain ⟨body, t, hout, hb⟩ := handle_client_run env client reads stop srv
  have hl : leaves (body ++ [Effect.log t, Effect.leave client.conn]) =
      kickRequests client reads ++ [client.conn] := by
    rw [leaves_append, hb]
    rfl
  refine ⟨body ++ [Effect.log t, Effect.leave client.conn], ?_, ?_, hl, ?_, ?_⟩
  · rw [hout, List.append_assoc]
  · have e : body ++ [Effect.log t, Effect.leave client.conn] =
        (body ++ [Effect.log t]) ++ [Effect.leave client.conn] := by simp
    rw [e, List.getLast?_concat]
  · intro hrole
    rw [hl]
    unfold kickRequests
    simp [hrole]
  · rw [hl, List.count_append]
    simp [Nat.add_comm]


/-- C8 as stated fails: with two spaces after `/msg` an empty token is handed on and the
tokens are not the runs of non-blank characters; with a tab after `/user` the whole line
is one token, so the command is not recognised and the answer differs from the one to
the same command written with a space. -/
theorem tokens_split_at_single_spaces_only :
    tokenize "/msg  alice hi\n".toList = ["/msg".toList, [], "alice".toList, "hi".toList] ∧
    Fields "/msg  alice hi\n".toList = ["/msg".toList, "alice".toList, "hi".toList] ∧
    tokenize "/user\tbob\n".toList = ["/user\tbob".toList] ∧
    tokenize "/user bob\n".toList = ["/user".toList, "bob".toList] ∧
    handle_line quietEnv smallRoom bobClient "/user\tbob\n".toList ≠
      handle_line quietEnv smallRoom bobClient "/user bob\n".toList := by
  decide

/-- C8, amended: for every line that begins with `/` once trimmed, handle_client hands to
the command dispatcher the pieces of the trimmed line between its space characters
(U+0020): joined with single spaces they give the trimmed line back, no piece contains a
space, there is one piece more than there are spaces, and the first piece, the command
name, begins with `/`. Two adjacent spaces therefore give an empty token, and a tab does
not separate. When the trimmed line consists of words separated by single spaces, and
has no other white space, the tokens are exactly the maximal runs of non-white-space
characters of the line and none is empty. -/
theorem command_tokens (env : Env) (srv : Server) (client : Client) (raw : List Char)
    (hcmd : HasPrefix (TrimSpace raw) "/".toList = true) :
    handle_line env srv client raw = dispatch env srv client (tokenize raw) ∧
    Join (tokenize raw) " ".toList = TrimSpace raw ∧
    (∀ t ∈ tokenize raw, ' ' ∉ t) ∧
    (tokenize raw).length = (TrimSpace raw).count ' ' + 1 ∧
    (∃ t ts, tokenize raw = ('/' :: t) :: ts) ∧
    (spacedWords (TrimSpace raw) = true →
      tokenize raw = Fields raw ∧ ∀ t ∈ tokenize raw, t ≠ []) := by
  have hhead : ∃ t ts, tokenize raw = ('/' :: t) :: ts := by
    unfold tokenize
    cases hs : TrimSpace raw with
    | nil =>
      rw [hs] at hcmd
      simp [HasPrefix] at hcmd
    | cons c cs =>
      rw [hs] at hcmd
      have hc : c = '/' := by
        have := hcmd
        simp [HasPrefix] at this
        exact this.symm
      subst hc
      rw [Split, if_neg (by decide)]
      cases hcs : Split cs ' ' with
      | nil => exact absurd hcs (Split_ne_nil cs ' ')
      | cons t ts => exact ⟨t, ts, rfl⟩
  obtain ⟨t, ts, hts⟩ := hhead
  refine ⟨handle_line_command env srv client raw t ts hts, Join_Split _ _, Split_no_sep _ _,
    Split_length _ _, ⟨t, ts, hts⟩, fun hw => ?_⟩
  have e : tokenize raw = Fields raw := by
    unfold tokenize
    rw [Split_eq_Fields _ hw, Fields_TrimSpace]
  exact ⟨e, by rw [e]; exact Fields_ne_nil raw⟩

/-- Witness of C8 (amended): the line `/msg alice hi`. -/
theorem command_tokens_witness :
    HasPrefix (TrimSpace "/msg alice hi\n".toList) "/".toList = true ∧
    spacedWords (TrimSpace "/msg alice hi\n".toList) = true ∧
    tokenize "/msg alice hi\n".toList = ["/msg".toList, "alice".toList, "hi".toList] ∧
    tokenize "/msg alice hi\n".toList = Fields "/msg alice hi\n".toList :=
  ⟨by decide, by decide, by decide,
    ((command_tokens quietEnv smallRoom bobClient "/msg alice hi\n".toList
      (by decide)).2.2.2.2.2 (by decide)).1⟩

end IrcServer
